import Mathlib

/-!
Verification of the AgriVision vegetation-index and adaptive grid
classification engine.  The Python modules `agrivision/pipeline/grid.py` and
`agrivision/pipeline/ndvi.py` are shallowly embedded below: pixels are
rationals, a non-finite pixel (NaN / ±inf) is `none`, and the stateless
numeric helpers become pure Lean functions.
-/

namespace AgriVision

/-- Cell classification categories (`"poor" | "medium" | "good" | "no_data"`). -/
inductive Cls where
  | poor
  | medium
  | good
  | no_data
deriving DecidableEq, Repr

/-- Python `string.ascii_uppercase` as a list of characters. -/
def lettersU : List Char :=
  ['A','B','C','D','E','F','G','H','I','J','K','L','M',
   'N','O','P','Q','R','S','T','U','V','W','X','Y','Z']

/-- Function `row_letter` from `grid.py`: 0-based row index to an Excel-like letter
label.  A Python string index out of range raises `IndexError`; that case is
`none` here. -/
def row_letter (idx : ℕ) : Option String :=
  if idx < lettersU.length then
    (lettersU[idx]?).map (fun ch => String.mk [ch])
  else
    match lettersU[idx / lettersU.length - 1]?, lettersU[idx % lettersU.length]? with
    | some a, some b => some (String.mk [a, b])
    | _, _ => none

/-- Structural-recursion core of `spreadsheetLabel`; the first argument is
fuel, strictly larger than the index (the recursive index `n / 26 - 1`
strictly decreases, so fuel `n + 1` never runs out). -/
def spreadsheetLabelAux : ℕ → ℕ → String
  | 0, _ => ""
  | fuel + 1, n =>
    if n < 26 then
      String.mk [lettersU.getD n 'A']
    else
      spreadsheetLabelAux fuel (n / 26 - 1) ++ String.mk [lettersU.getD (n % 26) 'A']

/-- Modelled from the spec: spreadsheet column naming, `A..Z, AA, AB, …`,
"never reusing the single-letter range", defined for every index.  Used only
as the comparator for the labeling claim. -/
def spreadsheetLabel (n : ℕ) : String := spreadsheetLabelAux (n + 1) n

/-- The fuel of `spreadsheetLabelAux` is irrelevant as long as it exceeds
the index. -/
theorem spreadsheetLabelAux_fuel :
    ∀ f₁ f₂ n, n < f₁ → n < f₂ →
      spreadsheetLabelAux f₁ n = spreadsheetLabelAux f₂ n := by
  intro f₁
  induction f₁ with
  | zero => intro f₂ n h1; omega
  | succ f ih =>
    intro f₂ n h1 h2
    cases f₂ with
    | zero => omega
    | succ f' =>
      by_cases h26 : n < 26
      · simp [spreadsheetLabelAux, h26]
      · have hlt : n / 26 < n := Nat.div_lt_self (by omega) (by omega)
        simp only [spreadsheetLabelAux, if_neg h26]
        rw [ih f' (n / 26 - 1) (by omega) (by omega)]

/-- The function `spreadsheetLabel` satisfies the spec's recurrence: below 26 a single
letter, otherwise the label of `n / 26 - 1` followed by the letter of
`n % 26`. -/
theorem spreadsheetLabel_rec (n : ℕ) (h : 26 ≤ n) :
    spreadsheetLabel n =
      spreadsheetLabel (n / 26 - 1) ++ String.mk [lettersU.getD (n % 26) 'A'] := by
  have hlt : n / 26 < n := Nat.div_lt_self (by omega) (by omega)
  have hstep : spreadsheetLabelAux (n + 1) n =
      if n < 26 then String.mk [lettersU.getD n 'A']
      else spreadsheetLabelAux n (n / 26 - 1) ++ String.mk [lettersU.getD (n % 26) 'A'] :=
    rfl
  rw [spreadsheetLabel, hstep, if_neg (by omega : ¬n < 26), spreadsheetLabel,
    spreadsheetLabelAux_fuel n (n / 26 - 1 + 1) (n / 26 - 1) (by omega) (by omega)]

/-- Function `classify_ndvi_absolute` from `grid.py`, with the module-level config
thresholds `POOR_MAX` / `MEDIUM_MAX` made explicit parameters.  A `none`
aggregate models a `None` / non-finite mean. -/
def classify_ndvi_absolute (poorMax medMax : ℚ) (value : Option ℚ) : Cls :=
  match value with
  | none => .no_data
  | some v =>
    if v < poorMax then .poor
    else if v < medMax then .medium
    else .good

/-- Function `classify_ndvi_dynamic` from `grid.py`: thresholds `t1`, `t2`
(e.g. the 33rd and 66th percentile). -/
def classify_ndvi_dynamic (t1 t2 : ℚ) (value : Option ℚ) : Cls :=
  match value with
  | none => .no_data
  | some v =>
    if v < t1 then .poor
    else if v < t2 then .medium
    else .good

/-- Numpy clip `np.clip x lo hi` for rationals. -/
def clip (x lo hi : ℚ) : ℚ := max lo (min hi x)

/-- The fixed epsilon of `_normalized_diff` in `ndvi.py`. -/
def eps : ℚ := 1 / 1000000

/-- Function `_normalized_diff` from `ndvi.py`, per pixel:
`np.clip ((a - b) / (a + b + eps)) (-1) 1`. -/
def normalized_diff (a b : ℚ) : ℚ :=
  clip ((a - b) / (a + b + eps)) (-1) 1

/-- One boundary index of `np.linspace(0, total, segs + 1, dtype=int)`:
the `i`-th evenly spaced boundary of `[0, total]` split into `segs`
segments, `⌊i * total / segs⌋`. -/
def edge (total segs i : ℕ) : ℕ := i * total / segs

/-- The full boundary sequence `np.linspace(0, total, segs + 1, dtype=int)`. -/
def edges (total segs : ℕ) : List ℕ :=
  (List.range (segs + 1)).map (edge total segs)

/-- The finite pixels of the sub-array `ndvi[r0:r1, c0:c1]`
(`patch[mask]` with `mask = np.isfinite(patch)`), in row-major order. -/
def finitePixels (ndvi : ℕ → ℕ → Option ℚ) (r0 r1 c0 c1 : ℕ) : List ℚ :=
  (List.range' r0 (r1 - r0)).flatMap
    (fun i => (List.range' c0 (c1 - c0)).filterMap (fun j => ndvi i j))

/-- One record of the `cells` list built by `make_grid`. -/
structure Cell where
  row_idx : ℕ
  col_idx : ℕ
  row_label : Option String
  col_label : ℕ
  cell_id : Option String
  mean_ndvi : Option ℚ
  cls : Cls
  r0 : ℕ
  r1 : ℕ
  c0 : ℕ
  c1 : ℕ
deriving DecidableEq, Repr

/-- The cell `make_grid` appends for grid position `(r, c)`. -/
def mkCell (ndvi : ℕ → ℕ → Option ℚ) (h w rows cols : ℕ)
    (classifier : Option ℚ → Cls) (r c : ℕ) : Cell :=
  let r0 := edge h rows r
  let r1 := edge h rows (r + 1)
  let c0 := edge w cols c
  let c1 := edge w cols (c + 1)
  let pix := finitePixels ndvi r0 r1 c0 c1
  let mean : Option ℚ :=
    if pix.isEmpty then none else some (pix.sum / pix.length)
  let rl := row_letter r
  { row_idx := r
    col_idx := c
    row_label := rl
    col_label := c + 1
    cell_id := rl.map (fun s => s ++ toString (c + 1))
    mean_ndvi := mean
    cls := classifier mean
    r0 := r0
    r1 := r1
    c0 := c0
    c1 := c1 }

/-- Function `make_grid` from `grid.py`: split the `h × w` NDVI array into
`rows × cols` cells (row-major) and classify each. -/
def make_grid (ndvi : ℕ → ℕ → Option ℚ) (h w rows cols : ℕ)
    (classifier : Option ℚ → Cls) : List Cell :=
  (List.range rows).flatMap
    (fun r => (List.range cols).map (fun c => mkCell ndvi h w rows cols classifier r c))

/-- Linear interpolation at fractional position `hq` into the sorted value
list `s` — the core of `np.percentile` with the default linear
interpolation: `s[⌊hq⌋] + (hq - ⌊hq⌋) * (s[⌊hq⌋+1] - s[⌊hq⌋])`. -/
def interpSorted (s : List ℚ) (hq : ℚ) : ℚ :=
  let i := (⌊hq⌋).toNat
  let lo := s.getD i 0
  let hi := s.getD (i + 1) lo
  lo + (hq - (i : ℚ)) * (hi - lo)

/-- Numpy `np.nanpercentile(xs, p)` on a list of (finite) rationals: sort, then
linearly interpolate at position `(n - 1) * p / 100`. -/
def percentile (xs : List ℚ) (p : ℚ) : ℚ :=
  let s := List.insertionSort (· ≤ ·) xs
  interpSorted s (((s.length : ℚ) - 1) * p / 100)

/-- The set of distinct classes among cells whose aggregate is not `None`:
the set comprehension over cells whose mean is not None in `run_grid_report`. -/
def classSet (cells : List Cell) : Finset Cls :=
  ((cells.filter (fun c => c.mean_ndvi.isSome)).map Cell.cls).toFinset

/-- The classification core of `run_grid_report` from `grid.py`: Pass 1 with
the absolute thresholds, the degeneracy check
`len(classes) <= 1 and classes and "no_data" not in classes`, and the
dynamic Pass 2 with the 33rd/66th percentile of the Pass-1 cell means.
I/O (loading `ndvi.tif`, writing PNG/CSV) is outside the embedding. -/
def run_grid_report (ndvi : ℕ → ℕ → Option ℚ) (h w rows cols : ℕ)
    (poorMax medMax : ℚ) : List Cell :=
  let cells := make_grid ndvi h w rows cols (classify_ndvi_absolute poorMax medMax)
  let classes := classSet cells
  if classes.card ≤ 1 ∧ classes.Nonempty ∧ Cls.no_data ∉ classes then
    let values := cells.filterMap Cell.mean_ndvi
    let q33 := percentile values 33
    let q66 := percentile values 66
    make_grid ndvi h w rows cols (classify_ndvi_dynamic q33 q66)
  else
    cells

/-- The degeneracy condition in the spec's wording: the set of distinct
classes among cells whose aggregate is not NoData has size ≤ 1, is
non-empty, and does not contain `no_data` as its sole member. -/
def specDegenerate (cells : List Cell) : Prop :=
  (classSet cells).card ≤ 1 ∧ (classSet cells).Nonempty ∧
    classSet cells ≠ {Cls.no_data}

instance (cells : List Cell) : Decidable (specDegenerate cells) := by
  unfold specDegenerate
  infer_instance

/-- A source raster as seen by `_read_band`: its band count and, for each
valid 1-based band index, the band's pixel array. -/
structure RasterSrc where
  count : ℕ
  band : ℕ → List (List ℚ)

/-- The `ValueError`s `_read_band` can raise: a `None` band index, or
`Invalid band index {band_idx}. Available bands: 1..{src.count}` — the
error value carries the offending index and the valid range. -/
inductive BandError where
  | noneIndex : BandError
  | invalidIndex (idx : ℤ) (lo : ℕ) (hi : ℕ) : BandError
deriving DecidableEq, Repr

/-- Function `_read_band` from `ndvi.py`. -/
def read_band (src : RasterSrc) (band_idx : Option ℤ) :
    Except BandError (List (List ℚ)) :=
  match band_idx with
  | none => .error .noneIndex
  | some i =>
    if i < 1 ∨ i > (src.count : ℤ) then
      .error (.invalidIndex i 1 src.count)
    else
      .ok (src.band i.toNat)

/-- Function `choose_source` from `ndvi.py`, generalized over the existence test on
paths and over the config-supplied paths and channel profiles.  On failure
the error carries every attempted path (the `RuntimeError` message names
both). -/
def choose_source {α : Type} (ex : String → Bool)
    (pathMapir pathRgb : String) (profMapir profRgb : α) :
    Except (List String) (String × String × α) :=
  if ex pathMapir then
    .ok (pathMapir, "MAPIR", profMapir)
  else if ex pathRgb then
    .ok (pathRgb, "RGB", profRgb)
  else
    .error [pathMapir, pathRgb]

/-- Raster pixel types (`rasterio` dtypes). -/
inductive PixelType where
  | uint8
  | uint16
  | int16
  | uint32
  | int32
  | float32
  | float64
deriving DecidableEq, Repr

/-- The metadata descriptor (`src.profile`) of a raster: driver, pixel type,
shape, band count, coordinate system, affine transform, nodata sentinel. -/
structure RasterProfile where
  driver : String
  dtype : PixelType
  width : ℕ
  height : ℕ
  count : ℕ
  crs : String
  transform : ℚ × ℚ × ℚ × ℚ × ℚ × ℚ
  nodata : Option ℚ
deriving DecidableEq, Repr

/-- The metadata update `save_geotiff` performs in `ndvi.py`:
`profile = src.profile.copy(); profile.update(dtype=float32, count=1,
nodata=None)`. -/
def save_geotiff (src : RasterProfile) : RasterProfile :=
  { src with dtype := .float32, count := 1, nodata := none }

/-- Modelled from the spec: "given an ordered list of (path, ChannelProfile)
candidates, return the first entry whose path exists …  Fails with
`NoSourceAvailable` if none exist, naming all attempted paths."  Comparator
for the source-selector claim. -/
def firstExistingSource {α : Type} (ex : String → Bool)
    (cands : List (String × String × α)) :
    Except (List String) (String × String × α) :=
  match cands.find? (fun c => ex c.1) with
  | some c => .ok c
  | none => .error (cands.map (fun c => c.1))

/-- C8: reading band `i` of a raster with `band_count` bands succeeds exactly
when `1 ≤ i ≤ band_count`; otherwise it fails with an invalid-band-index
error naming the index and the valid range `[1, band_count]`; the index is
never clamped (the success value is exactly band `i`), and in particular
index `0` and index `band_count + 1` both fail. -/
theorem C8_read_band (src : RasterSrc) (i : ℤ) :
    ((∃ arr, read_band src (some i) = .ok arr) ↔ 1 ≤ i ∧ i ≤ (src.count : ℤ)) ∧
    (1 ≤ i → i ≤ (src.count : ℤ) →
      read_band src (some i) = .ok (src.band i.toNat)) ∧
    (¬(1 ≤ i ∧ i ≤ (src.count : ℤ)) →
      read_band src (some i) = .error (.invalidIndex i 1 src.count)) ∧
    read_band src (some 0) = .error (.invalidIndex 0 1 src.count) ∧
    read_band src (some ((src.count : ℤ) + 1)) =
      .error (.invalidIndex ((src.count : ℤ) + 1) 1 src.count) := by
  refine ⟨?_, ?_, ?_, ?_, ?_⟩
  · constructor
    · rintro ⟨arr, harr⟩
      by_contra hc
      rw [read_band] at harr
      rw [if_pos (by omega)] at harr
      exact absurd harr (by simp)
    · rintro ⟨h1, h2⟩
      exact ⟨src.band i.toNat, by rw [read_band, if_neg (by omega)]⟩
  · intro h1 h2
    rw [read_band, if_neg (by omega)]
  · intro hc
    rw [read_band, if_pos (by omega)]
  · rw [read_band, if_pos (by omega)]
  · rw [read_band, if_pos (by omega)]

def bandSrcEx : RasterSrc := ⟨3, fun _ => [[0]]⟩

/-- Witness for C8 at a 3-band raster: band 2 succeeds, band 0 fails. -/
theorem C8_read_band_witness :
    read_band bandSrcEx (some 2) = .ok (bandSrcEx.band 2) ∧
    read_band bandSrcEx (some 0) = .error (.invalidIndex 0 1 3) := by
  refine ⟨?_, ?_⟩
  · have h := (C8_read_band bandSrcEx 2).2.1 (by decide) (by decide)
    simpa using h
  · have h := (C8_read_band bandSrcEx 0).2.2.2.1
    simpa using h

/-- C9: the source selector returns the first candidate (in the fixed
MAPIR-then-RGB order of `choose_source`) whose path exists, together with
that candidate's channel profile; if no candidate path exists, it fails with
an error naming every attempted path.  Stated as equality with the
first-match selector written from the spec's contract. -/
theorem C9_choose_source {α : Type} (ex : String → Bool)
    (pathMapir pathRgb : String) (profMapir profRgb : α) :
    choose_source ex pathMapir pathRgb profMapir profRgb =
      firstExistingSource ex
        [(pathMapir, "MAPIR", profMapir), (pathRgb, "RGB", profRgb)] := by
  cases hM : ex pathMapir <;> cases hR : ex pathRgb <;>
    simp [choose_source, firstExistingSource, List.find?, hM, hR]

def srcProfileEx : RasterProfile :=
  { driver := "GTiff"
    dtype := .uint16
    width := 4
    height := 3
    count := 4
    crs := "EPSG:32634"
    transform := (1, 0, 0, 0, 1, 0)
    nodata := some (-9999) }

/-- C10 counterexample: on a source profile whose nodata sentinel is set
(`-9999`), the written profile is **not** the source profile with only band
count and pixel type changed — `save_geotiff` also clears `nodata`. -/
theorem C10_counterexample :
    save_geotiff srcProfileEx ≠
      { srcProfileEx with dtype := .float32, count := 1 } := by
  decide

/-- C10 (amended): the written profile equals the source profile with the
band count forced to 1, the pixel type forced to 32-bit float, and the
nodata sentinel cleared; every other descriptor field is passed through
unchanged. -/
theorem C10_save_geotiff_profile (src : RasterProfile) :
    (save_geotiff src).driver = src.driver ∧
    (save_geotiff src).dtype = .float32 ∧
    (save_geotiff src).width = src.width ∧
    (save_geotiff src).height = src.height ∧
    (save_geotiff src).count = 1 ∧
    (save_geotiff src).crs = src.crs ∧
    (save_geotiff src).transform = src.transform ∧
    (save_geotiff src).nodata = none :=
  ⟨rfl, rfl, rfl, rfl, rfl, rfl, rfl, rfl⟩

def ndA : ℚ := 1

def ndB : ℚ := -1 + 2 * eps

/-- C4 counterexample: at `a = 1`, `b = -1 + 2ε` we have `a + b = 2ε ≠ 0`,
yet the computed index (clipped to `1`) differs from the exact ratio
`(a-b)/(a+b) = 999999` by `999998` — not within any ε-scale tolerance
(not even within `1`). -/
theorem C4_counterexample :
    ndA + ndB ≠ 0 ∧ 1 < |normalized_diff ndA ndB - (ndA - ndB) / (ndA + ndB)| := by
  constructor
  · rw [ndA, ndB, eps]; norm_num
  · rw [ndA, ndB, normalized_diff, clip, eps]
    norm_num

/-- C4 (amended): for `a + b ≠ 0` and `a + b + ε ≠ 0`,
`normalized_diff(a,b) = clip((a-b)/(a+b+ε), -1, 1)` always lies in
`[-1, 1]`; and whenever the exact ratio `(a-b)/(a+b)` itself lies in
`[-1, 1]`, the computed value differs from it by at most
`ε·|a-b| / (|a+b|·|a+b+ε|)` — an ε-scale bound away from the
near-cancellation regime. -/
theorem C4_normalized_diff (a b : ℚ) (hab : a + b ≠ 0) (habe : a + b + eps ≠ 0) :
    normalized_diff a b = clip ((a - b) / (a + b + eps)) (-1) 1 ∧
    -1 ≤ normalized_diff a b ∧ normalized_diff a b ≤ 1 ∧
    (|(a - b) / (a + b)| ≤ 1 →
      |normalized_diff a b - (a - b) / (a + b)| ≤
        eps * |a - b| / (|a + b| * |a + b + eps|)) := by
  refine ⟨rfl, ?_, ?_, ?_⟩
  · rw [normalized_diff, clip]; exact le_max_left _ _
  · rw [normalized_diff, clip]
    rcases le_total ((a - b) / (a + b + eps)) 1 with h | h
    · rw [min_eq_right h]
      rcases le_total (-1 : ℚ) ((a - b) / (a + b + eps)) with h2 | h2
      · rw [max_eq_right h2]; exact h
      · rw [max_eq_left h2]; norm_num
    · rw [min_eq_left h, max_eq_right (by norm_num : (-1 : ℚ) ≤ 1)]
  · intro ht
    set t := (a - b) / (a + b) with htdef
    set u := (a - b) / (a + b + eps) with hudef
    have ht1 : -1 ≤ t := neg_le_of_abs_le ht
    have ht2 : t ≤ 1 := le_of_abs_le ht
    have hclip : |normalized_diff a b - t| ≤ |u - t| := by
      rw [normalized_diff, clip]
      rcases le_total u (-1) with hu | hu
      · rw [min_eq_right (by linarith : u ≤ 1), max_eq_left (by linarith)]
        have h1 : |(-1 : ℚ) - t| = t + 1 := by
          rw [abs_sub_comm, abs_of_nonneg (by linarith)]
          ring
        have h2 : |u - t| = t - u := by
          rw [abs_sub_comm, abs_of_nonneg (by linarith)]
        rw [h1, h2]
        linarith
      · rcases le_total 1 u with hu2 | hu2
        · rw [min_eq_left hu2, max_eq_right (by norm_num : (-1 : ℚ) ≤ 1)]
          rw [abs_of_nonneg (by linarith), abs_of_nonneg (by linarith)]
          linarith
        · rw [min_eq_right hu2, max_eq_right hu]
    have hdiff : u - t = -(eps * (a - b)) / ((a + b) * (a + b + eps)) := by
      rw [htdef, hudef]
      field_simp
      ring
    have habs : |u - t| = eps * |a - b| / (|a + b| * |a + b + eps|) := by
      rw [hdiff, abs_div, abs_neg, abs_mul, abs_mul,
        abs_of_pos (by rw [eps]; norm_num : (0 : ℚ) < eps)]
    calc |normalized_diff a b - t| ≤ |u - t| := hclip
      _ = eps * |a - b| / (|a + b| * |a + b + eps|) := habs

/-- Witness for C4 at `a = 3, b = 1`: hypotheses hold and the bound is
instantiated concretely. -/
theorem C4_normalized_diff_witness :
    normalized_diff 3 1 = clip ((3 - 1) / (3 + 1 + eps)) (-1) 1 ∧
    -1 ≤ normalized_diff 3 1 ∧ normalized_diff 3 1 ≤ 1 ∧
    (|((3 : ℚ) - 1) / (3 + 1)| ≤ 1 →
      |normalized_diff 3 1 - (3 - 1) / (3 + 1)| ≤
        eps * |(3 : ℚ) - 1| / (|(3 : ℚ) + 1| * |(3 : ℚ) + 1 + eps|)) :=
  C4_normalized_diff 3 1 (by norm_num) (by rw [eps]; norm_num)

/-- Membership in the `make_grid` cell list is exactly being the cell of
some grid position `(r, c)`. -/
theorem mem_make_grid {ndvi : ℕ → ℕ → Option ℚ} {h w rows cols : ℕ}
    {κ : Option ℚ → Cls} {cell : Cell} :
    cell ∈ make_grid ndvi h w rows cols κ ↔
      ∃ r, r < rows ∧ ∃ c, c < cols ∧ cell = mkCell ndvi h w rows cols κ r c := by
  simp only [make_grid, List.mem_flatMap, List.mem_map, List.mem_range]
  constructor
  · rintro ⟨r, hr, c, hc, rfl⟩
    exact ⟨r, hr, c, hc, rfl⟩
  · rintro ⟨r, hr, c, hc, rfl⟩
    exact ⟨r, hr, c, hc, rfl⟩

/-- C7 counterexample: at row index 702 the spreadsheet label is `"AAA"`,
but `row_letter` raises `IndexError` (`letters[702 // 26 - 1]` is
`letters[26]`, out of range) instead of continuing the naming scheme — so
the labeling does **not** follow spreadsheet naming at every larger index. -/
theorem C7_counterexample :
    row_letter 702 = none ∧ spreadsheetLabel 702 = "AAA" ∧
      row_letter 702 ≠ some (spreadsheetLabel 702) := by
  refine ⟨by decide, by decide, ?_⟩
  intro hcontra
  simp [show row_letter 702 = none from by decide] at hcontra

set_option maxRecDepth 10000 in
/-- C7 (amended): for every zero-based row index **below 702** (single- and
double-letter range), the row-letter label follows spreadsheet column
naming: 0→"A", 25→"Z", 26→"AA", 27→"AB", …; indices from 702 on raise an
index error instead.  The cell id is the row letter concatenated with the
1-based column number. -/
theorem C7_row_letter (idx : ℕ) (hidx : idx < 702)
    (ndvi : ℕ → ℕ → Option ℚ) (h w rows cols : ℕ) (κ : Option ℚ → Cls)
    (cell : Cell) (hcell : cell ∈ make_grid ndvi h w rows cols κ) :
    row_letter idx = some (spreadsheetLabel idx) ∧
    cell.cell_id =
      (row_letter cell.row_idx).map (fun s => s ++ toString (cell.col_idx + 1)) := by
  constructor
  · revert hidx
    revert idx
    decide
  · obtain ⟨r, hr, c, hc, rfl⟩ := mem_make_grid.mp hcell
    rfl

/-- Witness for C7 at index 27 (`"AB"`) and the sole cell of a 1×1 grid over
a 1×1 raster. -/
theorem C7_row_letter_witness :
    row_letter 27 = some (spreadsheetLabel 27) ∧
    (mkCell (fun _ _ => none) 1 1 1 1 (classify_ndvi_absolute 0 0) 0 0).cell_id =
      (row_letter (mkCell (fun _ _ => none) 1 1 1 1 (classify_ndvi_absolute 0 0) 0 0).row_idx).map
        (fun s =>
          s ++ toString ((mkCell (fun _ _ => none) 1 1 1 1 (classify_ndvi_absolute 0 0) 0 0).col_idx + 1)) :=
  C7_row_letter 27 (by decide) (fun _ _ => none) 1 1 1 1 (classify_ndvi_absolute 0 0)
    (mkCell (fun _ _ => none) 1 1 1 1 (classify_ndvi_absolute 0 0) 0 0)
    (mem_make_grid.mpr ⟨0, by decide, 0, by decide, rfl⟩)

/-- On a `≤`-sorted rational list, `getD · 0` is monotone on in-range
indices. -/
theorem sorted_getD_mono {s : List ℚ} (hs : List.Sorted (· ≤ ·) s) {a b : ℕ}
    (hab : a ≤ b) (hb : b < s.length) : s.getD a 0 ≤ s.getD b 0 := by
  have ha : a < s.length := Nat.lt_of_le_of_lt hab hb
  rw [List.getD_eq_getElem s 0 ha, List.getD_eq_getElem s 0 hb]
  rcases Nat.eq_or_lt_of_le hab with rfl | hlt
  · exact le_refl _
  · exact List.pairwise_iff_getElem.mp hs a b ha hb hlt

/-- Linear interpolation into a `≤`-sorted list is monotone in the
position, on the valid range `[0, length - 1]`. -/
theorem interpSorted_mono {s : List ℚ} (hs : List.Sorted (· ≤ ·) s)
    {h1 h2 : ℚ} (h0 : 0 ≤ h1) (h12 : h1 ≤ h2) (hn : h2 ≤ (s.length : ℚ) - 1) :
    interpSorted s h1 ≤ interpSorted s h2 := by
  have hlen : 1 ≤ s.length := by
    by_contra hc
    have hz : s.length = 0 := by omega
    rw [hz] at hn
    norm_num at hn
    linarith
  have hfl1 : (0 : ℤ) ≤ ⌊h1⌋ := Int.floor_nonneg.mpr h0
  have hfl2 : (0 : ℤ) ≤ ⌊h2⌋ := Int.floor_nonneg.mpr (le_trans h0 h12)
  set i1 := (⌊h1⌋).toNat with hi1def
  set i2 := (⌊h2⌋).toNat with hi2def
  have hc1 : ((i1 : ℚ)) = ((⌊h1⌋ : ℤ) : ℚ) := by
    rw [hi1def]
    exact_mod_cast congrArg (fun z => ((z : ℤ) : ℚ)) (Int.toNat_of_nonneg hfl1)
  have hc2 : ((i2 : ℚ)) = ((⌊h2⌋ : ℤ) : ℚ) := by
    rw [hi2def]
    exact_mod_cast congrArg (fun z => ((z : ℤ) : ℚ)) (Int.toNat_of_nonneg hfl2)
  have hf1lo : (i1 : ℚ) ≤ h1 := by rw [hc1]; exact Int.floor_le h1
  have hf1hi : h1 < (i1 : ℚ) + 1 := by rw [hc1]; exact Int.lt_floor_add_one h1
  have hf2lo : (i2 : ℚ) ≤ h2 := by rw [hc2]; exact Int.floor_le h2
  have hf2hi : h2 < (i2 : ℚ) + 1 := by rw [hc2]; exact Int.lt_floor_add_one h2
  have hi12 : i1 ≤ i2 := by
    rw [hi1def, hi2def]
    exact Int.toNat_le_toNat (Int.floor_le_floor h12)
  have hi2lt : i2 < s.length := by
    have : (i2 : ℚ) ≤ (s.length : ℚ) - 1 := le_trans hf2lo hn
    have : (i2 : ℚ) + 1 ≤ (s.length : ℚ) := by linarith
    exact_mod_cast this
  have hi1lt : i1 < s.length := Nat.lt_of_le_of_lt hi12 hi2lt
  have e1 : interpSorted s h1 =
      s.getD i1 0 + (h1 - (i1 : ℚ)) * (s.getD (i1 + 1) (s.getD i1 0) - s.getD i1 0) := rfl
  have e2 : interpSorted s h2 =
      s.getD i2 0 + (h2 - (i2 : ℚ)) * (s.getD (i2 + 1) (s.getD i2 0) - s.getD i2 0) := rfl
  rw [e1, e2]
  rcases Nat.eq_or_lt_of_le hi12 with heq | hlt
  · rw [← heq]
    by_cases hrange : i1 + 1 < s.length
    · have hd : s.getD i1 0 ≤ s.getD (i1 + 1) (s.getD i1 0) := by
        rw [List.getD_eq_getElem s _ hrange, List.getD_eq_getElem s 0 hi1lt]
        exact List.pairwise_iff_getElem.mp hs i1 (i1 + 1) hi1lt hrange (by omega)
      have hstep : (h1 - (i1 : ℚ)) * (s.getD (i1 + 1) (s.getD i1 0) - s.getD i1 0) ≤
          (h2 - (i1 : ℚ)) * (s.getD (i1 + 1) (s.getD i1 0) - s.getD i1 0) :=
        mul_le_mul_of_nonneg_right (by linarith) (by linarith)
      linarith
    · have hdef : s.getD (i1 + 1) (s.getD i1 0) = s.getD i1 0 :=
        List.getD_eq_default s _ (by omega)
      rw [hdef]
      ring_nf
      exact le_refl _
  · have hi1r : i1 + 1 < s.length ∨ i1 + 1 = i2 ∨ i1 + 1 < i2 := by omega
    have hi1succ : i1 + 1 ≤ i2 := hlt
    have hi1succ_lt : i1 + 1 < s.length := Nat.lt_of_le_of_lt hi1succ hi2lt
    have hlo1 : s.getD i1 0 ≤ s.getD (i1 + 1) (s.getD i1 0) := by
      rw [List.getD_eq_getElem s _ hi1succ_lt, List.getD_eq_getElem s 0 hi1lt]
      exact List.pairwise_iff_getElem.mp hs i1 (i1 + 1) hi1lt hi1succ_lt (by omega)
    have hub : s.getD i1 0 + (h1 - (i1 : ℚ)) * (s.getD (i1 + 1) (s.getD i1 0) - s.getD i1 0) ≤
        s.getD (i1 + 1) (s.getD i1 0) := by
      have h1f : h1 - (i1 : ℚ) ≤ 1 := by linarith
      nlinarith [hlo1]
    have hmid : s.getD (i1 + 1) (s.getD i1 0) ≤ s.getD i2 0 := by
      rw [List.getD_eq_getElem s _ hi1succ_lt]
      have : s.getD (i1 + 1) 0 ≤ s.getD i2 0 := sorted_getD_mono hs hi1succ hi2lt
      rw [List.getD_eq_getElem s 0 hi1succ_lt] at this
      exact this
    have hlb : s.getD i2 0 ≤
        s.getD i2 0 + (h2 - (i2 : ℚ)) * (s.getD (i2 + 1) (s.getD i2 0) - s.getD i2 0) := by
      by_cases hr2 : i2 + 1 < s.length
      · have hd2 : s.getD i2 0 ≤ s.getD (i2 + 1) (s.getD i2 0) := by
          rw [List.getD_eq_getElem s _ hr2, List.getD_eq_getElem s 0 hi2lt]
          exact List.pairwise_iff_getElem.mp hs i2 (i2 + 1) hi2lt hr2 (by omega)
        nlinarith
      · have hdef2 : s.getD (i2 + 1) (s.getD i2 0) = s.getD i2 0 :=
          List.getD_eq_default s _ (by omega)
        rw [hdef2]
        ring_nf
        exact le_refl _
    linarith

/-- The 33rd percentile of a non-empty value list is at most the 66th. -/
theorem percentile_33_le_66 (xs : List ℚ) (hne : xs ≠ []) :
    percentile xs 33 ≤ percentile xs 66 := by
  have hs : (List.insertionSort (· ≤ ·) xs).Sorted (· ≤ ·) :=
    List.sorted_insertionSort (· ≤ ·) xs
  have hlen : 1 ≤ (List.insertionSort (· ≤ ·) xs).length := by
    rw [List.length_insertionSort]
    exact List.length_pos.mpr hne
  have hlenq : (1 : ℚ) ≤ ((List.insertionSort (· ≤ ·) xs).length : ℚ) := by
    exact_mod_cast hlen
  have h33 : percentile xs 33 =
      interpSorted (List.insertionSort (· ≤ ·) xs)
        ((((List.insertionSort (· ≤ ·) xs).length : ℚ) - 1) * 33 / 100) := rfl
  have h66 : percentile xs 66 =
      interpSorted (List.insertionSort (· ≤ ·) xs)
        ((((List.insertionSort (· ≤ ·) xs).length : ℚ) - 1) * 66 / 100) := rfl
  rw [h33, h66]
  have hpos : (0 : ℚ) ≤ ((List.insertionSort (· ≤ ·) xs).length : ℚ) - 1 := by linarith
  apply interpSorted_mono hs
  · exact div_nonneg (mul_nonneg hpos (by norm_num)) (by norm_num)
  · linarith
  · linarith

/-- C6: with thresholds `(t1, t2)` (with `t1 ≤ t2`) a non-NoData aggregate
`v` classifies `poor` when `v < t1`, `medium` when `t1 ≤ v < t2`, `good`
when `v ≥ t2`; Pass 1's absolute classifier applies the identical rule to
`(poor_max, medium_max)`; and Pass 2's 33rd/66th-percentile thresholds are
ordered (`q33 ≤ q66`), so they obey the same comparison rule. -/
theorem C6_classifier (poorMax medMax t1 t2 v : ℚ) (xs : List ℚ)
    (ht : t1 ≤ t2) (hxs : xs ≠ []) :
    (v < t1 → classify_ndvi_dynamic t1 t2 (some v) = .poor) ∧
    (t1 ≤ v → v < t2 → classify_ndvi_dynamic t1 t2 (some v) = .medium) ∧
    (t2 ≤ v → classify_ndvi_dynamic t1 t2 (some v) = .good) ∧
    classify_ndvi_absolute poorMax medMax (some v) =
      classify_ndvi_dynamic poorMax medMax (some v) ∧
    percentile xs 33 ≤ percentile xs 66 := by
  refine ⟨?_, ?_, ?_, rfl, percentile_33_le_66 xs hxs⟩
  · intro hv
    simp [classify_ndvi_dynamic, if_pos hv]
  · intro hv1 hv2
    simp [classify_ndvi_dynamic, if_neg (not_lt.mpr hv1), if_pos hv2]
  · intro hv
    have h1 : ¬v < t1 := not_lt.mpr (le_trans ht hv)
    have h2 : ¬v < t2 := not_lt.mpr hv
    simp [classify_ndvi_dynamic, if_neg h1, if_neg h2]

/-- Witness for C6 at thresholds `(1/4, 1/2)`, value `3/4`, sample `[1/10]`. -/
theorem C6_classifier_witness :
    ((3 : ℚ) / 4 < 1 / 4 → classify_ndvi_dynamic (1 / 4) (1 / 2) (some (3 / 4)) = .poor) ∧
    ((1 : ℚ) / 4 ≤ 3 / 4 → (3 : ℚ) / 4 < 1 / 2 →
      classify_ndvi_dynamic (1 / 4) (1 / 2) (some (3 / 4)) = .medium) ∧
    ((1 : ℚ) / 2 ≤ 3 / 4 → classify_ndvi_dynamic (1 / 4) (1 / 2) (some (3 / 4)) = .good) ∧
    classify_ndvi_absolute (3 / 10) (6 / 10) (some (3 / 4)) =
      classify_ndvi_dynamic (3 / 10) (6 / 10) (some (3 / 4)) ∧
    percentile [1 / 10] 33 ≤ percentile [1 / 10] 66 :=
  C6_classifier (3 / 10) (6 / 10) (1 / 4) (1 / 2) (3 / 4) [1 / 10]
    (by norm_num) (by simp)

theorem mkCell_r0 (ndvi : ℕ → ℕ → Option ℚ) (h w rows cols : ℕ)
    (κ : Option ℚ → Cls) (r c : ℕ) :
    (mkCell ndvi h w rows cols κ r c).r0 = edge h rows r := rfl

theorem mkCell_r1 (ndvi : ℕ → ℕ → Option ℚ) (h w rows cols : ℕ)
    (κ : Option ℚ → Cls) (r c : ℕ) :
    (mkCell ndvi h w rows cols κ r c).r1 = edge h rows (r + 1) := rfl

theorem mkCell_c0 (ndvi : ℕ → ℕ → Option ℚ) (h w rows cols : ℕ)
    (κ : Option ℚ → Cls) (r c : ℕ) :
    (mkCell ndvi h w rows cols κ r c).c0 = edge w cols c := rfl

theorem mkCell_c1 (ndvi : ℕ → ℕ → Option ℚ) (h w rows cols : ℕ)
    (κ : Option ℚ → Cls) (r c : ℕ) :
    (mkCell ndvi h w rows cols κ r c).c1 = edge w cols (c + 1) := rfl

theorem mkCell_row_idx (ndvi : ℕ → ℕ → Option ℚ) (h w rows cols : ℕ)
    (κ : Option ℚ → Cls) (r c : ℕ) :
    (mkCell ndvi h w rows cols κ r c).row_idx = r := rfl

theorem mkCell_col_idx (ndvi : ℕ → ℕ → Option ℚ) (h w rows cols : ℕ)
    (κ : Option ℚ → Cls) (r c : ℕ) :
    (mkCell ndvi h w rows cols κ r c).col_idx = c := rfl

theorem mkCell_mean (ndvi : ℕ → ℕ → Option ℚ) (h w rows cols : ℕ)
    (κ : Option ℚ → Cls) (r c : ℕ) :
    (mkCell ndvi h w rows cols κ r c).mean_ndvi =
      if (finitePixels ndvi (edge h rows r) (edge h rows (r + 1))
            (edge w cols c) (edge w cols (c + 1))).isEmpty
      then none
      else some ((finitePixels ndvi (edge h rows r) (edge h rows (r + 1))
            (edge w cols c) (edge w cols (c + 1))).sum /
          (finitePixels ndvi (edge h rows r) (edge h rows (r + 1))
            (edge w cols c) (edge w cols (c + 1))).length) := rfl

theorem mkCell_cls (ndvi : ℕ → ℕ → Option ℚ) (h w rows cols : ℕ)
    (κ : Option ℚ → Cls) (r c : ℕ) :
    (mkCell ndvi h w rows cols κ r c).cls =
      κ ((mkCell ndvi h w rows cols κ r c).mean_ndvi) := rfl

/-- Any cell of `make_grid` under a classifier sending `none` to `no_data`:
an all-non-finite cell gets a `none` aggregate and class `no_data`, any
other cell's aggregate is the arithmetic mean of its finite pixels only. -/
theorem make_grid_cell_mean {ndvi : ℕ → ℕ → Option ℚ} {h w rows cols : ℕ}
    {κ : Option ℚ → Cls} {cell : Cell} (hκ : κ none = Cls.no_data)
    (hmem : cell ∈ make_grid ndvi h w rows cols κ) :
    (finitePixels ndvi cell.r0 cell.r1 cell.c0 cell.c1 = [] →
      cell.mean_ndvi = none ∧ cell.cls = Cls.no_data) ∧
    (finitePixels ndvi cell.r0 cell.r1 cell.c0 cell.c1 ≠ [] →
      cell.mean_ndvi =
        some ((finitePixels ndvi cell.r0 cell.r1 cell.c0 cell.c1).sum /
          (finitePixels ndvi cell.r0 cell.r1 cell.c0 cell.c1).length)) := by
  obtain ⟨r, hr, c, hc, rfl⟩ := mem_make_grid.mp hmem
  rw [mkCell_r0, mkCell_r1, mkCell_c0, mkCell_c1]
  constructor
  · intro hemp
    have hmean : (mkCell ndvi h w rows cols κ r c).mean_ndvi = none := by
      rw [mkCell_mean, hemp]
      simp
    refine ⟨hmean, ?_⟩
    rw [mkCell_cls, hmean, hκ]
  · intro hne
    rw [mkCell_mean, if_neg (by simpa using hne)]

/-- C2: in every pass (absolute Pass 1 and dynamic Pass 2 alike), a cell
whose pixels are all non-finite gets aggregate NoData (`none`, not zero and
not an error) and class `no_data`; the dynamic classifier never maps a
NoData aggregate to anything but `no_data`; any other cell's aggregate is
the arithmetic mean of its finite pixels only. -/
theorem C2_cell_aggregate (ndvi : ℕ → ℕ → Option ℚ) (h w rows cols : ℕ)
    (poorMax medMax t1 t2 : ℚ) (cell : Cell)
    (hcell :
      cell ∈ make_grid ndvi h w rows cols (classify_ndvi_absolute poorMax medMax) ∨
      cell ∈ make_grid ndvi h w rows cols (classify_ndvi_dynamic t1 t2)) :
    (finitePixels ndvi cell.r0 cell.r1 cell.c0 cell.c1 = [] →
      cell.mean_ndvi = none ∧ cell.cls = Cls.no_data) ∧
    (finitePixels ndvi cell.r0 cell.r1 cell.c0 cell.c1 ≠ [] →
      cell.mean_ndvi =
        some ((finitePixels ndvi cell.r0 cell.r1 cell.c0 cell.c1).sum /
          (finitePixels ndvi cell.r0 cell.r1 cell.c0 cell.c1).length)) ∧
    (∀ u1 u2 : ℚ, classify_ndvi_dynamic u1 u2 none = Cls.no_data) := by
  rcases hcell with hmem | hmem
  · have hspec := make_grid_cell_mean (κ := classify_ndvi_absolute poorMax medMax) rfl hmem
    exact ⟨hspec.1, hspec.2, fun _ _ => rfl⟩
  · have hspec := make_grid_cell_mean (κ := classify_ndvi_dynamic t1 t2) rfl hmem
    exact ⟨hspec.1, hspec.2, fun _ _ => rfl⟩

def ndviMix : ℕ → ℕ → Option ℚ := fun i j =>
  if i = 0 ∧ j = 0 then some (1 / 2) else none

/-- Witness for C2 on a 2×1 raster split into 2×1 cells: the top cell has
one finite pixel (mean `1/2`), the bottom cell is all-NaN. -/
theorem C2_cell_aggregate_witness :
    (finitePixels ndviMix (mkCell ndviMix 2 1 2 1 (classify_ndvi_absolute 0 1) 1 0).r0
        (mkCell ndviMix 2 1 2 1 (classify_ndvi_absolute 0 1) 1 0).r1
        (mkCell ndviMix 2 1 2 1 (classify_ndvi_absolute 0 1) 1 0).c0
        (mkCell ndviMix 2 1 2 1 (classify_ndvi_absolute 0 1) 1 0).c1 = [] →
      (mkCell ndviMix 2 1 2 1 (classify_ndvi_absolute 0 1) 1 0).mean_ndvi = none ∧
      (mkCell ndviMix 2 1 2 1 (classify_ndvi_absolute 0 1) 1 0).cls = Cls.no_data) ∧
    (finitePixels ndviMix (mkCell ndviMix 2 1 2 1 (classify_ndvi_absolute 0 1) 1 0).r0
        (mkCell ndviMix 2 1 2 1 (classify_ndvi_absolute 0 1) 1 0).r1
        (mkCell ndviMix 2 1 2 1 (classify_ndvi_absolute 0 1) 1 0).c0
        (mkCell ndviMix 2 1 2 1 (classify_ndvi_absolute 0 1) 1 0).c1 ≠ [] →
      (mkCell ndviMix 2 1 2 1 (classify_ndvi_absolute 0 1) 1 0).mean_ndvi =
        some ((finitePixels ndviMix (mkCell ndviMix 2 1 2 1 (classify_ndvi_absolute 0 1) 1 0).r0
            (mkCell ndviMix 2 1 2 1 (classify_ndvi_absolute 0 1) 1 0).r1
            (mkCell ndviMix 2 1 2 1 (classify_ndvi_absolute 0 1) 1 0).c0
            (mkCell ndviMix 2 1 2 1 (classify_ndvi_absolute 0 1) 1 0).c1).sum /
          (finitePixels ndviMix (mkCell ndviMix 2 1 2 1 (classify_ndvi_absolute 0 1) 1 0).r0
            (mkCell ndviMix 2 1 2 1 (classify_ndvi_absolute 0 1) 1 0).r1
            (mkCell ndviMix 2 1 2 1 (classify_ndvi_absolute 0 1) 1 0).c0
            (mkCell ndviMix 2 1 2 1 (classify_ndvi_absolute 0 1) 1 0).c1).length)) ∧
    (∀ u1 u2 : ℚ, classify_ndvi_dynamic u1 u2 none = Cls.no_data) :=
  C2_cell_aggregate ndviMix 2 1 2 1 0 1 0 0
    (mkCell ndviMix 2 1 2 1 (classify_ndvi_absolute 0 1) 1 0)
    (Or.inl (mem_make_grid.mpr ⟨1, by decide, 0, by decide, rfl⟩))

/-- The code's degeneracy test
(`len(classes) <= 1 and classes and "no_data" not in classes`) is equivalent
to the spec's ("size ≤ 1, non-empty, and not `{no_data}` as sole member"). -/
theorem degeneracy_iff (cells : List Cell) :
    ((classSet cells).card ≤ 1 ∧ (classSet cells).Nonempty ∧
        Cls.no_data ∉ classSet cells) ↔ specDegenerate cells := by
  rw [specDegenerate]
  constructor
  · rintro ⟨h1, h2, h3⟩
    refine ⟨h1, h2, ?_⟩
    intro he
    rw [he] at h3
    simp at h3
  · rintro ⟨h1, h2, h3⟩
    refine ⟨h1, h2, ?_⟩
    intro hmem
    apply h3
    have hcard : (classSet cells).card = 1 :=
      le_antisymm h1 (Finset.card_pos.mpr h2)
    obtain ⟨y, hy⟩ := Finset.card_eq_one.mp hcard
    rw [hy] at hmem ⊢
    simp only [Finset.mem_singleton] at hmem
    rw [hmem]

/-- C1: the classification run equals Pass 1 exactly unless the spec's
degeneracy condition holds on Pass 1's cells, in which case the output is
the full re-partition and re-classification with the 33rd/66th percentile
(linear interpolation) of the non-NoData Pass-1 cell means as thresholds —
Pass 2 replaces Pass 1 entirely, and no further pass is applied even when
Pass 2 is itself degenerate. -/
theorem C1_two_pass (ndvi : ℕ → ℕ → Option ℚ) (h w rows cols : ℕ)
    (poorMax medMax : ℚ) :
    run_grid_report ndvi h w rows cols poorMax medMax =
      if specDegenerate
          (make_grid ndvi h w rows cols (classify_ndvi_absolute poorMax medMax))
      then
        make_grid ndvi h w rows cols
          (classify_ndvi_dynamic
            (percentile
              ((make_grid ndvi h w rows cols
                (classify_ndvi_absolute poorMax medMax)).filterMap Cell.mean_ndvi) 33)
            (percentile
              ((make_grid ndvi h w rows cols
                (classify_ndvi_absolute poorMax medMax)).filterMap Cell.mean_ndvi) 66))
      else
        make_grid ndvi h w rows cols (classify_ndvi_absolute poorMax medMax) := by
  by_cases hdeg : specDegenerate
      (make_grid ndvi h w rows cols (classify_ndvi_absolute poorMax medMax))
  · rw [if_pos hdeg, run_grid_report]
    rw [if_pos ((degeneracy_iff _).mpr hdeg)]
  · rw [if_neg hdeg, run_grid_report]
    rw [if_neg (fun hc => hdeg ((degeneracy_iff _).mp hc))]

/-- C5: when Pass 1 yields zero cells with a non-NoData aggregate, no
reclassification is attempted and Pass 1's all-`no_data` cell list stands as
the final (non-error) output. -/
theorem C5_empty_distribution (ndvi : ℕ → ℕ → Option ℚ) (h w rows cols : ℕ)
    (poorMax medMax : ℚ)
    (hall : ∀ cell ∈ make_grid ndvi h w rows cols
        (classify_ndvi_absolute poorMax medMax), cell.mean_ndvi = none) :
    run_grid_report ndvi h w rows cols poorMax medMax =
      make_grid ndvi h w rows cols (classify_ndvi_absolute poorMax medMax) := by
  have hfil : (make_grid ndvi h w rows cols
      (classify_ndvi_absolute poorMax medMax)).filter
        (fun c => c.mean_ndvi.isSome) = [] := by
    rw [List.filter_eq_nil_iff]
    intro c hc
    rw [hall c hc]
    simp
  have hcls : classSet (make_grid ndvi h w rows cols
      (classify_ndvi_absolute poorMax medMax)) = ∅ := by
    rw [classSet, hfil]
    rfl
  rw [run_grid_report]
  rw [if_neg]
  rw [hcls]
  rintro ⟨-, h2, -⟩
  exact Finset.not_nonempty_empty h2

def ndviNone : ℕ → ℕ → Option ℚ := fun _ _ => none

/-- Witness for C5: a 1×1 all-NaN raster in a 1×1 grid. -/
theorem C5_empty_distribution_witness :
    run_grid_report ndviNone 1 1 1 1 (3 / 10) (6 / 10) =
      make_grid ndviNone 1 1 1 1 (classify_ndvi_absolute (3 / 10) (6 / 10)) :=
  C5_empty_distribution ndviNone 1 1 1 1 (3 / 10) (6 / 10) (by decide)

theorem edge_zero (total segs : ℕ) : edge total segs 0 = 0 := by
  simp [edge]

theorem edge_last (total segs : ℕ) (hs : 0 < segs) : edge total segs segs = total := by
  rw [edge]
  exact Nat.mul_div_cancel_left total hs

theorem edge_mono (total segs : ℕ) {i j : ℕ} (hij : i ≤ j) :
    edge total segs i ≤ edge total segs j :=
  Nat.div_le_div_right (Nat.mul_le_mul_right total hij)

/-- Each pixel coordinate below `total` lies in exactly one of the `segs`
boundary segments. -/
theorem edge_cover (total segs : ℕ) (hs : 0 < segs) {y : ℕ} (hy : y < total) :
    ∃! r, r < segs ∧ edge total segs r ≤ y ∧ y < edge total segs (r + 1) := by
  have hex : ∃ r, y < edge total segs (r + 1) :=
    ⟨segs - 1, by rw [Nat.sub_add_cancel hs, edge_last total segs hs]; exact hy⟩
  refine ⟨Nat.find hex, ⟨?_, ?_, Nat.find_spec hex⟩, ?_⟩
  · have hle : Nat.find hex ≤ segs - 1 := Nat.find_le (by
      rw [Nat.sub_add_cancel hs, edge_last total segs hs]; exact hy)
    omega
  · rcases hfind : Nat.find hex with _ | m
    · rw [edge_zero]
      exact Nat.zero_le y
    · have hmin : ¬y < edge total segs (m + 1) :=
        Nat.find_min hex (by omega)
      omega
  · rintro r' ⟨hr'lt, hr'le, hr'gt⟩
    by_contra hne
    rcases Nat.lt_or_ge r' (Nat.find hex) with hlt | hge
    · exact Nat.find_min hex hlt hr'gt
    · have hgt : Nat.find hex < r' := by omega
      have hchain : edge total segs (Nat.find hex + 1) ≤ edge total segs r' :=
        edge_mono total segs hgt
      have := Nat.find_spec hex
      omega

/-- Sub-additivity bounds of `ℕ` division used for segment lengths. -/
theorem div_add_div_bounds (a b k : ℕ) (hk : 0 < k) :
    a / k + b / k ≤ (a + b) / k ∧ (a + b) / k ≤ a / k + b / k + 1 := by
  rw [Nat.add_div hk]
  split_ifs <;> omega

/-- Every segment's length is `total / segs` or `total / segs + 1`. -/
theorem edge_len_bounds (total segs : ℕ) (hs : 0 < segs) (i : ℕ) :
    total / segs ≤ edge total segs (i + 1) - edge total segs i ∧
    edge total segs (i + 1) - edge total segs i ≤ total / segs + 1 := by
  have hrw : edge total segs (i + 1) = (i * total + total) / segs := by
    rw [edge]
    congr 1
    ring
  obtain ⟨hA, hB⟩ := div_add_div_bounds (i * total) total segs hs
  have hmono : edge total segs i ≤ edge total segs (i + 1) :=
    edge_mono total segs (by omega)
  rw [hrw]
  rw [edge] at hmono ⊢
  rw [hrw] at hmono
  omega

/-- The list `edges` is the boundary list, with `getD` giving the `i`-th boundary. -/
theorem edges_getD (total segs i : ℕ) (hi : i ≤ segs) :
    (edges total segs).getD i 0 = edge total segs i := by
  have hlen : i < (edges total segs).length := by
    simp only [edges, List.length_map, List.length_range]
    omega
  rw [List.getD_eq_getElem _ _ hlen]
  simp [edges]

/-- The boundary sequence is non-decreasing. -/
theorem edges_sorted (total segs : ℕ) :
    (edges total segs).Sorted (· ≤ ·) := by
  rw [edges]
  apply List.Pairwise.map
  · intro a b hab
    exact edge_mono total segs (Nat.le_of_lt hab)
  · exact List.pairwise_lt_range (segs + 1)

/-- C3: for `H, W, R, C ≥ 1`, the boundary sequences are non-decreasing,
start at 0 and end at `H` (resp. `W`); the `R × C` cell ranges
`[r0,r1) × [c0,c1)` partition `[0,H) × [0,W)` exactly (every pixel lies in
exactly one cell); and two segment lengths along the same axis differ by at
most one pixel. -/
theorem C3_partition (h w rows cols : ℕ) (hh : 1 ≤ h) (hw : 1 ≤ w)
    (hrows : 1 ≤ rows) (hcols : 1 ≤ cols)
    (ndvi : ℕ → ℕ → Option ℚ) (κ : Option ℚ → Cls) :
    (edges h rows).Sorted (· ≤ ·) ∧
    (edges w cols).Sorted (· ≤ ·) ∧
    (edges h rows).getD 0 0 = 0 ∧ (edges h rows).getD rows 0 = h ∧
    (edges w cols).getD 0 0 = 0 ∧ (edges w cols).getD cols 0 = w ∧
    (∀ y x, y < h → x < w →
      ∃! cell, (cell ∈ make_grid ndvi h w rows cols κ ∧
        cell.r0 ≤ y ∧ y < cell.r1 ∧ cell.c0 ≤ x ∧ x < cell.c1)) ∧
    (∀ i j, i < rows → j < rows →
      edge h rows (i + 1) - edge h rows i ≤
        (edge h rows (j + 1) - edge h rows j) + 1) ∧
    (∀ i j, i < cols → j < cols →
      edge w cols (i + 1) - edge w cols i ≤
        (edge w cols (j + 1) - edge w cols j) + 1) := by
  refine ⟨edges_sorted h rows, edges_sorted w cols, ?_, ?_, ?_, ?_, ?_, ?_, ?_⟩
  · rw [edges_getD h rows 0 (by omega), edge_zero]
  · rw [edges_getD h rows rows (by omega), edge_last h rows (by omega)]
  · rw [edges_getD w cols 0 (by omega), edge_zero]
  · rw [edges_getD w cols cols (by omega), edge_last w cols (by omega)]
  · intro y x hy hx
    obtain ⟨r, ⟨hrlt, hrle, hrgt⟩, hrun⟩ := edge_cover h rows (by omega) hy
    obtain ⟨c, ⟨hclt, hcle, hcgt⟩, hcun⟩ := edge_cover w cols (by omega) hx
    refine ⟨mkCell ndvi h w rows cols κ r c,
      ⟨mem_make_grid.mpr ⟨r, hrlt, c, hclt, rfl⟩, ?_, ?_, ?_, ?_⟩, ?_⟩
    · rw [mkCell_r0]; exact hrle
    · rw [mkCell_r1]; exact hrgt
    · rw [mkCell_c0]; exact hcle
    · rw [mkCell_c1]; exact hcgt
    · rintro cell' ⟨hmem', h1, h2, h3, h4⟩
      obtain ⟨r', hr', c', hc', rfl⟩ := mem_make_grid.mp hmem'
      rw [mkCell_r0] at h1
      rw [mkCell_r1] at h2
      rw [mkCell_c0] at h3
      rw [mkCell_c1] at h4
      have her : r' = r := hrun r' ⟨hr', h1, h2⟩
      have hec : c' = c := hcun c' ⟨hc', h3, h4⟩
      rw [her, hec]
  · intro i j hi hj
    obtain ⟨-, hub⟩ := edge_len_bounds h rows (by omega) i
    obtain ⟨hlb, -⟩ := edge_len_bounds h rows (by omega) j
    omega
  · intro i j hi hj
    obtain ⟨-, hub⟩ := edge_len_bounds w cols (by omega) i
    obtain ⟨hlb, -⟩ := edge_len_bounds w cols (by omega) j
    omega

/-- Witness for C3 on a 5×4 raster in a 2×3 grid, checking the boundary
endpoints concretely. -/
theorem C3_partition_witness :
    (edges 5 2).Sorted (· ≤ ·) ∧
    (edges 4 3).Sorted (· ≤ ·) ∧
    (edges 5 2).getD 0 0 = 0 ∧ (edges 5 2).getD 2 0 = 5 ∧
    (edges 4 3).getD 0 0 = 0 ∧ (edges 4 3).getD 3 0 = 4 ∧
    (∀ y x, y < 5 → x < 4 →
      ∃! cell, (cell ∈ make_grid ndviNone 5 4 2 3 (classify_ndvi_absolute 0 1) ∧
        cell.r0 ≤ y ∧ y < cell.r1 ∧ cell.c0 ≤ x ∧ x < cell.c1)) ∧
    (∀ i j, i < 2 → j < 2 →
      edge 5 2 (i + 1) - edge 5 2 i ≤ (edge 5 2 (j + 1) - edge 5 2 j) + 1) ∧
    (∀ i j, i < 3 → j < 3 →
      edge 4 3 (i + 1) - edge 4 3 i ≤ (edge 4 3 (j + 1) - edge 4 3 j) + 1) :=
  C3_partition 5 4 2 3 (by omega) (by omega) (by omega) (by omega)
    ndviNone (classify_ndvi_absolute 0 1)

end AgriVision
